import Mathlib

/-!
Verification development for the pytest-adversarial repository.

The Python sources are shallowly embedded: pure computations become Lean
functions over `Nat`, `Rat`, `String` and lists; the outcome of each sandboxed
pytest subprocess (an external, nondeterministic event) is passed in explicitly
as a `PytestOutcome` value, and the code that post-processes that outcome is
translated line by line.  Scores are rationals (Python floats here only ever
hold small dyadic/decimal fractions produced by divisions of small ints, so
`Rat` models them exactly).
-/

/-! ## Fitness evaluator (src/pytest_adversarial/fitness.py) -/

/-- Mirror of the `FitnessResult` dataclass (fitness.py lines 33-41). -/
structure FitnessResult where
  score : ℚ
  passed : ℕ
  failed : ℕ
  errors : List String
  output : String
  deriving DecidableEq

/-- Mirror of the `Attack` dataclass fields used by the evaluator
(agents.py: `test_code`, `description`, `attack_type`). -/
structure Attack where
  test_code : String
  description : String
  attack_type : String
  deriving DecidableEq

/-- Possible outcomes of one sandboxed pytest subprocess, the external event
`FitnessEvaluator._run_pytest` reacts to (fitness.py lines 185-231):
the run completed and its output parsed to `(passed, failed, errors)`;
the run hit `subprocess.TimeoutExpired`; or launching raised some exception. -/
inductive PytestOutcome where
  | completed (passed failed : ℕ) (errors : List String) (output : String)
  | timedOut
  | launchError (msg : String)
  deriving DecidableEq

/-- Mirror of `FitnessEvaluator._run_pytest` (fitness.py lines 176-231): on a
completed run the score field is a placeholder 0.0 ("will be set by the
caller"); on timeout it returns score 0.5 with errors `["Timeout"]`; on a
launch exception score 0.0 with the stringified exception. -/
def runPytest : PytestOutcome → FitnessResult
  | .completed passed failed errors output =>
      { score := 0, passed := passed, failed := failed, errors := errors, output := output }
  | .timedOut =>
      { score := 1/2, passed := 0, failed := 0, errors := ["Timeout"],
        output := "Test execution timed out" }
  | .launchError msg =>
      { score := 0, passed := 0, failed := 0, errors := [msg], output := msg }

/-- Mirror of `FitnessEvaluator.evaluate_attack` (fitness.py lines 59-99): run
pytest on the (target, attack) pair, then re-score the result in place:
`1.0` if `result.failed > 0`, else `0.8` if `result.errors` is nonempty,
else `0.0`.  The sandbox outcome for the pair is the explicit argument. -/
def evaluate_attack (outcome : PytestOutcome) : FitnessResult :=
  let result := runPytest outcome
  if result.failed > 0 then { result with score := 1 }
  else if result.errors ≠ [] then { result with score := 8/10 }
  else { result with score := 0 }

/-- Python truthiness of the `sanity_tests: Optional[str]` argument:
`None` and the empty string are falsy (fitness.py line 154). -/
def sanityTruthy : Option String → Bool
  | none => false
  | some s => !s.isEmpty

/-- Mirror of `FitnessEvaluator.evaluate_defense` (fitness.py lines 101-174).
`mainOutcome` is the sandbox outcome of the aggregated attack-test run,
`sanityOutcome` the outcome of the sanity run (consulted only on the branch
that actually executes it).  Control flow follows the source exactly:
an empty attack list returns `score=1.0, passed=0, failed=0, errors=[]`
immediately; otherwise score is `passed/(passed+failed)` when `total > 0`,
else `0.0`; then, only when `sanity_tests` is truthy AND `score > 0`, the
sanity run happens and `sanity_result.failed > 0` overrides the score to 0
and appends the SANITY_FAILED message to errors. -/
def evaluate_defense (attacks : List Attack) (sanity_tests : Option String)
    (mainOutcome sanityOutcome : PytestOutcome) : FitnessResult :=
  if attacks.isEmpty then
    { score := 1, passed := 0, failed := 0, errors := [], output := "" }
  else
    let result := runPytest mainOutcome
    let total := result.passed + result.failed
    let score : ℚ := if total > 0 then (result.passed : ℚ) / (total : ℚ) else 0
    let result := { result with score := score }
    if sanityTruthy sanity_tests ∧ score > 0 then
      let sanity_result := runPytest sanityOutcome
      if sanity_result.failed > 0 then
        { result with
          score := 0
          errors := result.errors ++ ["SANITY_FAILED: Original functionality broken"] }
      else result
    else result

/-! ## Defensive-exception decision, three call sites (src/pytest_adversarial/cli.py)

Each site re-declares the same `DEFENSIVE_PATTERNS` list and re-implements the
same check on the first captured error message; we transcribe each site
separately so that their agreement is a theorem, not a modelling assumption. -/

/-- Substring test `pat ∈ s`, Python's `pattern in error_msg`, on char lists. -/
def charSub (pat : List Char) : List Char → Bool
  | [] => pat.isEmpty
  | c :: rest => pat.isPrefixOf (c :: rest) || charSub pat rest

/-- Python `pattern in error_msg` on strings. -/
def strContains (s pat : String) : Bool :=
  charSub pat.data s.data

/-- `DEFENSIVE_PATTERNS` as declared in `DRQRunner._run_round`
(cli.py lines 366-377). -/
def defensivePatternsRound : List String :=
  ["ValueError", "TypeError", "Input must be", "Input cannot be",
   "Input string cannot", "must be a string", "must be a dict",
   "cannot be empty", "cannot be None", "Invalid input"]

/-- `DEFENSIVE_PATTERNS` as declared in `DRQRunner._test_attack_generality`
(cli.py lines 473-484). -/
def defensivePatternsGenerality : List String :=
  ["ValueError", "TypeError", "Input must be", "Input cannot be",
   "Input string cannot", "must be a string", "must be a dict",
   "cannot be empty", "cannot be None", "Invalid input"]

/-- `DEFENSIVE_PATTERNS` as declared in `DRQRunner._measure_final_robustness`
(cli.py lines 523-534). -/
def defensivePatternsFinal : List String :=
  ["ValueError", "TypeError", "Input must be", "Input cannot be",
   "Input string cannot", "must be a string", "must be a dict",
   "cannot be empty", "cannot be None", "Invalid input"]

/-- `is_defensive` computation in `_run_round` (cli.py lines 390-396):
false when `result.errors` is empty, otherwise true iff the first error
message contains one of the round-site patterns. -/
def isDefensiveRound (errors : List String) : Bool :=
  match errors with
  | [] => false
  | e :: _ => defensivePatternsRound.any (fun p => strContains e p)

/-- `is_defensive` computation in `_test_attack_generality`
(cli.py lines 499-505). -/
def isDefensiveGenerality (errors : List String) : Bool :=
  match errors with
  | [] => false
  | e :: _ => defensivePatternsGenerality.any (fun p => strContains e p)

/-- `is_defensive` computation in `_measure_final_robustness`
(cli.py lines 546-552). -/
def isDefensiveFinal (errors : List String) : Bool :=
  match errors with
  | [] => false
  | e :: _ => defensivePatternsFinal.any (fun p => strContains e p)

/-- Round-level blocked decision (cli.py lines 400-409):
`if result.score < 0.5: blocked; elif is_defensive: blocked; else crashed`. -/
def blockedRound (score : ℚ) (errors : List String) : Bool :=
  if score < 1/2 then true
  else if isDefensiveRound errors then true
  else false

/-- Generality-site defeat decision (cli.py lines 507-509):
the attack wins iff `result.score >= 0.5 and not is_defensive`. -/
def defeatsGenerality (score : ℚ) (errors : List String) : Bool :=
  decide (1/2 ≤ score) && !(isDefensiveGenerality errors)

/-- Final-robustness blocked decision (cli.py lines 554-555):
`if result.score < 0.5 or is_defensive: blocks += 1`. -/
def blockedFinal (score : ℚ) (errors : List String) : Bool :=
  decide (score < 1/2) || isDefensiveFinal errors

/-! ## Genomes (src/src/archive_v2.py) -/

/-- Mirror of the `AttackGenome` dataclass (archive_v2.py lines 23-58),
with the Python field defaults. -/
structure AttackGenome where
  code : String
  attack_type : String
  error_type : String
  description : String
  fitness : ℚ := 0
  defeats_count : ℕ := 0
  tested_against : ℕ := 0
  generation : ℕ := 0
  parent_hash : Option String := none
  deriving DecidableEq

/-- Mirror of the `AttackGenome.generality` property (archive_v2.py lines
43-48): `0.0` when `tested_against == 0`, else `defeats_count / tested_against`. -/
def AttackGenome.generality (g : AttackGenome) : ℚ :=
  if g.tested_against = 0 then 0
  else (g.defeats_count : ℚ) / (g.tested_against : ℚ)

/-- Mirror of the `AttackGenome.niche` property (archive_v2.py lines 50-53). -/
def AttackGenome.niche (g : AttackGenome) : String × String :=
  (g.attack_type, g.error_type)

/-- Mirror of the `DefenseGenome` dataclass (archive_v2.py lines 61-88). -/
structure DefenseGenome where
  code : String
  description : String
  fitness : ℚ := 0
  blocks_count : ℕ := 0
  tested_against : ℕ := 0
  generation : ℕ := 0
  parent_hash : Option String := none
  deriving DecidableEq

/-- Mirror of the `DefenseGenome.robustness` property (archive_v2.py lines
79-84): `0.0` when `tested_against == 0`, else `blocks_count / tested_against`. -/
def DefenseGenome.robustness (g : DefenseGenome) : ℚ :=
  if g.tested_against = 0 then 0
  else (g.blocks_count : ℚ) / (g.tested_against : ℚ)

/-! ## Stable sorting by a key

Python `list.sort(key=...)` (Timsort) is a stable sort; any stable sort by the
same key computes the same list, so the embedding uses Mathlib's stable
`List.insertionSort`.  `key=fitness, reverse=True` is the stable descending
sort `fitSortDesc`; `key=fitness` is `fitSortAsc`; `key=robustness,
reverse=True` is `robSortDesc`. -/

/-- Ordering relation placing genome `a` before `b` under
`sort(key=lambda g: g.fitness, reverse=True)`. -/
def fitGe (a b : AttackGenome) : Prop := b.fitness ≤ a.fitness

/-- Ordering relation of `sort(key=lambda g: g.fitness)`. -/
def fitLe (a b : AttackGenome) : Prop := a.fitness ≤ b.fitness

/-- Ordering relation of `sort(key=lambda g: g.robustness, reverse=True)`. -/
def robGe (a b : DefenseGenome) : Prop := b.robustness ≤ a.robustness

instance : DecidableRel fitGe := fun _ _ => inferInstanceAs (Decidable (_ ≤ _))
instance : DecidableRel fitLe := fun _ _ => inferInstanceAs (Decidable (_ ≤ _))
instance : DecidableRel robGe := fun _ _ => inferInstanceAs (Decidable (_ ≤ _))

instance : IsTotal AttackGenome fitGe := ⟨fun a b => le_total b.fitness a.fitness⟩
instance : IsTrans AttackGenome fitGe := ⟨fun _ _ _ h1 h2 => le_trans h2 h1⟩
instance : IsTotal AttackGenome fitLe := ⟨fun a b => le_total a.fitness b.fitness⟩
instance : IsTrans AttackGenome fitLe := ⟨fun _ _ _ h1 h2 => le_trans h1 h2⟩
instance : IsTotal DefenseGenome robGe := ⟨fun a b => le_total b.robustness a.robustness⟩
instance : IsTrans DefenseGenome robGe := ⟨fun _ _ _ h1 h2 => le_trans h2 h1⟩

/-- `niche_list.sort(key=lambda g: g.fitness, reverse=True)`. -/
def fitSortDesc (l : List AttackGenome) : List AttackGenome :=
  List.insertionSort fitGe l

/-- `niche_list.sort(key=lambda g: g.fitness)`. -/
def fitSortAsc (l : List AttackGenome) : List AttackGenome :=
  List.insertionSort fitLe l

/-- `self.archive.sort(key=lambda g: g.robustness, reverse=True)`. -/
def robSortDesc (l : List DefenseGenome) : List DefenseGenome :=
  List.insertionSort robGe l

/-! ## MAP-Elites attack archive (src/src/archive_v2.py lines 91-250) -/

/-- The archive's `defaultdict(list)` keyed by niche, modelled as an
association list in key-insertion order (Python dicts preserve it). -/
abbrev NicheMap := List ((String × String) × List AttackGenome)

/-- Read access `self.archive[niche]` (a missing key denotes the empty list
the defaultdict would create). -/
def nicheGet (m : NicheMap) (n : String × String) : List AttackGenome :=
  match m.find? (fun p => decide (p.1 = n)) with
  | some p => p.2
  | none => []

/-- Write-back of a niche's list, preserving dict key order; a new key is
appended at the end, as defaultdict insertion does. -/
def nicheSet (m : NicheMap) (n : String × String) (l : List AttackGenome) : NicheMap :=
  if m.any (fun p => decide (p.1 = n)) then
    m.map (fun p => if p.1 = n then (n, l) else p)
  else m ++ [(n, l)]

/-- Mirror of `MAPElitesArchive` state (archive_v2.py lines 128-139). -/
structure MAPElitesArchive where
  max_per_niche : ℕ := 3
  archive : NicheMap := []
  history : List AttackGenome := []
  total_evaluated : ℕ := 0
  total_added : ℕ := 0
  deriving DecidableEq

/-- Python `min(g.fitness for g in niche_list)` (archive_v2.py line 162);
only ever called on a nonempty list (a full niche), the `[]` case is junk. -/
def minFitness : List AttackGenome → ℚ
  | [] => 0
  | g :: t => t.foldl (fun m h => min m h.fitness) g.fitness

/-- Mirror of `MAPElitesArchive.add` (archive_v2.py lines 141-172), returning
the new archive state and the accepted flag.  Steps, in source order:
bump `total_evaluated`, append to `history`; if the niche holds fewer than
`max_per_niche` genomes, append and stable-sort descending by fitness, bump
`total_added`, return accepted; else if the candidate's fitness strictly
exceeds the niche minimum, stable-sort ascending, pop the head, append the
candidate, stable-sort descending, bump `total_added`, return accepted;
else return rejected with the niche unchanged. -/
def MAPElitesArchive.add (a : MAPElitesArchive) (genome : AttackGenome) :
    MAPElitesArchive × Bool :=
  let a := { a with
    total_evaluated := a.total_evaluated + 1
    history := a.history ++ [genome] }
  let niche_list := nicheGet a.archive genome.niche
  if niche_list.length < a.max_per_niche then
    ({ a with
        archive := nicheSet a.archive genome.niche (fitSortDesc (niche_list ++ [genome]))
        total_added := a.total_added + 1 }, true)
  else if minFitness niche_list < genome.fitness then
    ({ a with
        archive := nicheSet a.archive genome.niche
          (fitSortDesc ((fitSortAsc niche_list).drop 1 ++ [genome]))
        total_added := a.total_added + 1 }, true)
  else (a, false)

/-- Mirror of `MAPElitesArchive.get_all` (archive_v2.py lines 174-179):
concatenate the niche lists in dict order. -/
def MAPElitesArchive.get_all (a : MAPElitesArchive) : List AttackGenome :=
  (a.archive.map Prod.snd).flatten

/-- One pass of the `for niche in niches[:]` loop inside
`get_diverse_sample` (archive_v2.py lines 203-208): append the head element
of each nonempty niche, breaking as soon as `n` samples are collected. -/
def diversePass (a : MAPElitesArchive) (n : ℕ) (sample : List AttackGenome) :
    List (String × String) → List AttackGenome
  | [] => sample
  | nich :: rest =>
    match nicheGet a.archive nich with
    | [] => diversePass a n sample rest
    | g :: _ =>
      let sample := sample ++ [g]
      if n ≤ sample.length then sample else diversePass a n sample rest

/-- The `while len(sample) < n and niches:` loop (archive_v2.py lines
202-210).  Fuel bounds the iteration count: every iteration whose pass
appends nothing leaves only niches of length ≤ 1, which the filter then
empties, so `n + 2` iterations always suffice. -/
def diverseLoop (a : MAPElitesArchive) (n : ℕ) :
    ℕ → List AttackGenome → List (String × String) → List AttackGenome
  | 0, sample, _ => sample
  | fuel + 1, sample, niches =>
    if sample.length < n ∧ niches ≠ [] then
      let sample := diversePass a n sample niches
      let niches := niches.filter (fun nich => 1 < (nicheGet a.archive nich).length)
      diverseLoop a n fuel sample niches
    else sample

/-- Mirror of `MAPElitesArchive.get_diverse_sample` (archive_v2.py lines
189-212): return everything when the archive holds at most `n` genomes;
otherwise run the round-robin loop over the dict keys and truncate to `n`. -/
def MAPElitesArchive.get_diverse_sample (a : MAPElitesArchive) (n : ℕ) :
    List AttackGenome :=
  let all_genomes := a.get_all
  if all_genomes.length ≤ n then all_genomes
  else (diverseLoop a n (n + 2) [] (a.archive.map Prod.fst)).take n

/-! ## Defense archive (src/src/archive_v2.py lines 253-298) -/

/-- Mirror of `DefenseArchive` state; `__init__(max_size=100)` starts with
empty `archive` and `history` (archive_v2.py lines 261-264). -/
structure DefenseArchive where
  max_size : ℕ := 100
  archive : List DefenseGenome := []
  history : List DefenseGenome := []
  deriving DecidableEq

/-- Mirror of `DefenseArchive.add` (archive_v2.py lines 266-276): append to
`history` and `archive`; when `len(archive) > max_size`, stable-sort the
archive descending by robustness and keep the first `max_size` entries. -/
def DefenseArchive.add (d : DefenseArchive) (genome : DefenseGenome) : DefenseArchive :=
  let d := { d with
    history := d.history ++ [genome]
    archive := d.archive ++ [genome] }
  if d.max_size < d.archive.length then
    { d with archive := (robSortDesc d.archive).take d.max_size }
  else d

/-- Mirror of `DefenseArchive.get_best` (archive_v2.py lines 278-282):
`None` on an empty archive, else Python's `max(archive, key=robustness)`,
which keeps the first element among ties and replaces only on a strictly
greater key. -/
def DefenseArchive.get_best (d : DefenseArchive) : Option DefenseGenome :=
  match d.archive with
  | [] => none
  | g :: t => some (t.foldl (fun best x => if best.robustness < x.robustness then x else best) g)

/-- The controller's reading of the best robustness on record:
`current_best.robustness if current_best else 0.0` (cli.py line 425). -/
def bestRobustness (d : DefenseArchive) : ℚ :=
  match d.get_best with
  | some g => g.robustness
  | none => 0

/-- State reached from a fresh `DefenseArchive(max_size)` by a sequence of
`add` calls, the only way the controller ever builds one. -/
def DefenseArchive.addAll (max_size : ℕ) (gs : List DefenseGenome) : DefenseArchive :=
  gs.foldl DefenseArchive.add { max_size := max_size, archive := [], history := [] }

/-! ## Round controller: defense scoring and target promotion
(src/pytest_adversarial/cli.py, `DRQRunner._run_round` lines 411-447) -/

/-- The round robustness `blocks_count / len(all_attacks) if all_attacks
else 1.0` (cli.py line 411). -/
def roundRobustness (blocks_count attacksTotal : ℕ) : ℚ :=
  if attacksTotal = 0 then 1 else (blocks_count : ℚ) / (attacksTotal : ℚ)

/-- The `DefenseGenome(...)` constructed in `_run_round`
(cli.py lines 414-421). -/
def roundDefenseGenome (fixed_code explanation : String)
    (blocks_count attacksTotal round_num : ℕ) : DefenseGenome :=
  { code := fixed_code
    description := explanation
    fitness := roundRobustness blocks_count attacksTotal
    blocks_count := blocks_count
    tested_against := attacksTotal
    generation := round_num }

/-- Result of the promotion step of one round: the possibly-updated current
target, the updated defense archive, and the two round-stats fields the step
writes (cli.py lines 162-168 and 423-444). -/
structure PromotionOutcome where
  current_code : String
  defense_archive : DefenseArchive
  defense_improved : Bool
  new_robustness : ℚ
  deriving DecidableEq

/-- Mirror of the tail of `DRQRunner._run_round` (cli.py lines 423-444):
read the best prior defense (`0.0` robustness when there is none), add the
new genome to the defense archive unconditionally, and replace
`current_code` with the patched source iff the new robustness strictly
exceeds the prior best. -/
def promotionStep (current_code : String) (d : DefenseArchive)
    (fixed_code explanation : String) (blocks_count attacksTotal round_num : ℕ) :
    PromotionOutcome :=
  let robustness := roundRobustness blocks_count attacksTotal
  let defense_genome := roundDefenseGenome fixed_code explanation
    blocks_count attacksTotal round_num
  let current_robustness := bestRobustness d
  let d2 := d.add defense_genome
  if current_robustness < robustness then
    { current_code := fixed_code, defense_archive := d2,
      defense_improved := true, new_robustness := robustness }
  else
    { current_code := current_code, defense_archive := d2,
      defense_improved := false, new_robustness := robustness }

/-! ## Concrete inputs used by counterexamples and witnesses -/

/-- An attack genome in the niche `("edge_case", "TypeError")` with the given
code and fitness, counters left at the dataclass defaults. -/
def exGenome (c : String) (f : ℚ) : AttackGenome :=
  { code := c, attack_type := "edge_case", error_type := "TypeError",
    description := "d", fitness := f }

/-- Shorthand for chaining `MAPElitesArchive.add` on `(state, flag)` pairs. -/
def addNext (st : MAPElitesArchive × Bool) (g : AttackGenome) :
    MAPElitesArchive × Bool :=
  st.1.add g

/-- The §8 scenario-4 insertion sequence: four genomes with fitnesses
0.6, 0.7, 0.8, 0.5 into one niche of a fresh archive with `max_per_niche = 3`. -/
def scenario4 : MAPElitesArchive × Bool :=
  addNext (addNext (addNext (({ } : MAPElitesArchive).add (exGenome "w" (6/10)))
    (exGenome "x" (7/10))) (exGenome "y" (8/10))) (exGenome "z" (5/10))

/-- An archive holding one niche with three genomes of fitness 0.9, 0.8, 0.7,
built by three accepted adds into a fresh archive. -/
def oneNicheArchive : MAPElitesArchive :=
  (addNext (addNext (({ } : MAPElitesArchive).add (exGenome "a" (9/10)))
    (exGenome "b" (8/10))) (exGenome "c" (7/10))).1

/-- A defense genome with the given code and block counters (robustness
`blocks / tested`). -/
def exDefense (c : String) (blocks tested : ℕ) : DefenseGenome :=
  { code := c, description := "d", blocks_count := blocks, tested_against := tested }

/-- Defense archive with `max_size = 2` after adding defenses of robustness
0.5, 0.9, 0.2 in that insertion order; the third add overflows the bound. -/
def smallDefenseArchive : DefenseArchive :=
  DefenseArchive.addAll 2 [exDefense "a" 1 2, exDefense "b" 9 10, exDefense "c" 1 5]

/-! ## Theorems -/

/-- C10: the derived ratios are total functions of the counters: `generality`
is 0 when `tested_against = 0` and `defeats_count / tested_against` otherwise,
`robustness` is 0 when `tested_against = 0` and `blocks_count / tested_against`
otherwise, and a freshly constructed genome (all counters at the dataclass
defaults 0/0) has generality resp. robustness 0; no division by zero can
occur since the zero-denominator case is short-circuited. -/
theorem genome_ratio_totality (a : AttackGenome) (d : DefenseGenome) :
    (a.tested_against = 0 → a.generality = 0)
    ∧ (a.tested_against ≠ 0 →
        a.generality = (a.defeats_count : ℚ) / (a.tested_against : ℚ))
    ∧ (d.tested_against = 0 → d.robustness = 0)
    ∧ (d.tested_against ≠ 0 →
        d.robustness = (d.blocks_count : ℚ) / (d.tested_against : ℚ))
    ∧ (∀ c t e ds, (AttackGenome.mk c t e ds 0 0 0 0 none).generality = 0)
    ∧ (∀ c ds, (DefenseGenome.mk c ds 0 0 0 0 none).robustness = 0) := by
  refine ⟨?_, ?_, ?_, ?_, ?_, ?_⟩ <;>
    intros <;> simp_all [AttackGenome.generality, DefenseGenome.robustness]

/-- C10 witness: concrete evaluation of the theorem at genomes with counters
1/2 and 3/4. -/
theorem genome_ratio_totality_witness :
    (AttackGenome.mk "c" "t" "e" "d" 1 1 2 0 none).generality = 1/2
    ∧ (DefenseGenome.mk "c" "d" 1 3 4 0 none).robustness = 3/4 := by
  constructor
  · have h := (genome_ratio_totality (AttackGenome.mk "c" "t" "e" "d" 1 1 2 0 none)
      (DefenseGenome.mk "c" "d" 1 3 4 0 none)).2.1 (by decide)
    rw [h]
    norm_num
  · have h := (genome_ratio_totality (AttackGenome.mk "c" "t" "e" "d" 1 1 2 0 none)
      (DefenseGenome.mk "c" "d" 1 3 4 0 none)).2.2.2.1 (by decide)
    rw [h]
    norm_num

/-- C2: the blocked/defeated decision is one and the same function of the
attack score and first error message at all three sites: the round-level
blocked decision equals the negation of the generality-site defeat decision,
equals the final-robustness blocked decision, and all of them are
"score below 1/2, or first error message matching a defensive pattern". -/
theorem blocked_decision_agreement (score : ℚ) (errors : List String) :
    blockedRound score errors = !(defeatsGenerality score errors)
    ∧ blockedRound score errors = blockedFinal score errors
    ∧ blockedRound score errors = (decide (score < 1/2) || isDefensiveRound errors) := by
  have hg : isDefensiveGenerality errors = isDefensiveRound errors := by
    cases errors <;> rfl
  have hf : isDefensiveFinal errors = isDefensiveRound errors := by
    cases errors <;> rfl
  unfold blockedRound defeatsGenerality blockedFinal
  rcases lt_or_le score (1/2) with h | h
  · have h2 : score < (2⁻¹ : ℚ) := by rwa [one_div] at h
    simp [h, hg, hf, not_le.mpr h, h2, not_le.mpr h2]
  · have h2 : (2⁻¹ : ℚ) ≤ score := by rwa [one_div] at h
    simp [h, hg, hf, not_lt.mpr h, h2, not_lt.mpr h2]

/-- C3 (code bug): on a sandbox timeout, `_run_pytest` hands back the result
`score=0.5, failed=0, errors=["Timeout"]`, but `evaluate_attack` re-scores
every result it receives, and the timeout result falls into the
`elif result.errors:` branch: the returned fitness is 0.8, not the 0.5 that
the spec, the module docstring and the repository's own
`test_timeout_handling` (tests/test_fitness.py) require. -/
theorem evaluate_attack_timeout_rescored :
    (runPytest PytestOutcome.timedOut).score = 1/2
    ∧ (evaluate_attack PytestOutcome.timedOut).score = 8/10
    ∧ (evaluate_attack PytestOutcome.timedOut).score ≠ 1/2 := by
  have h : (evaluate_attack PytestOutcome.timedOut).score = 8/10 := rfl
  refine ⟨rfl, h, ?_⟩
  rw [h]
  norm_num

/-- C6 (code bug): a failing sanity suite does not force score 0.0 with a
SANITY_FAILED error entry.  Left conjuncts: with an empty attack list
`evaluate_defense` returns immediately with score 1.0 and empty errors — the
sanity tests are never run even though they would fail (sanity outcome:
0 passed, 1 failed).  Right conjuncts: with a nonempty attack list whose
aggregated run gives score 0, the `result.score > 0` guard skips the sanity
run, so SANITY_FAILED is never appended. -/
theorem evaluate_defense_sanity_unchecked :
    (evaluate_defense [] (some "def test_sane(): assert add(2,3)==5")
      (PytestOutcome.completed 0 0 [] "")
      (PytestOutcome.completed 0 1 ["E assert None == 5"] "")).score = 1
    ∧ (evaluate_defense [] (some "def test_sane(): assert add(2,3)==5")
      (PytestOutcome.completed 0 0 [] "")
      (PytestOutcome.completed 0 1 ["E assert None == 5"] "")).errors = []
    ∧ (evaluate_defense [Attack.mk "def test_a(): boom()" "d" "edge_case"]
      (some "def test_sane(): assert add(2,3)==5")
      (PytestOutcome.completed 0 1 ["E boom"] "")
      (PytestOutcome.completed 0 1 ["E assert None == 5"] "")).score = 0
    ∧ (evaluate_defense [Attack.mk "def test_a(): boom()" "d" "edge_case"]
      (some "def test_sane(): assert add(2,3)==5")
      (PytestOutcome.completed 0 1 ["E boom"] "")
      (PytestOutcome.completed 0 1 ["E assert None == 5"] "")).errors = ["E boom"] := by
  refine ⟨rfl, rfl, ?_, ?_⟩ <;>
    norm_num [evaluate_defense, runPytest, sanityTruthy]

/-- Helper: `DefenseArchive.add` always appends the genome to `history`,
whether or not the size bound triggers pruning. -/
theorem defenseAdd_history (d : DefenseArchive) (g : DefenseGenome) :
    (d.add g).history = d.history ++ [g] := by
  simp only [DefenseArchive.add]
  split <;> rfl

/-- Helper: the archive list produced by `DefenseArchive.add`. -/
theorem defenseAdd_archive (d : DefenseArchive) (g : DefenseGenome) :
    (d.add g).archive =
      if d.max_size < (d.archive ++ [g]).length
      then (robSortDesc (d.archive ++ [g])).take d.max_size
      else d.archive ++ [g] := by
  simp only [DefenseArchive.add]
  split <;> rfl

/-- Helper: `DefenseArchive.add` never changes the size bound. -/
theorem defenseAdd_max_size (d : DefenseArchive) (g : DefenseGenome) :
    (d.add g).max_size = d.max_size := by
  simp only [DefenseArchive.add]
  split <;> rfl

/-- C7 counterexample: called with the empty attack list — so no tests ran —
`evaluate_defense` returns score 1.0, not the 0.0 the claim demands. -/
theorem evaluate_defense_empty_score_one :
    (evaluate_defense [] none (PytestOutcome.completed 0 0 [] "")
      (PytestOutcome.completed 0 0 [] "")).score = 1
    ∧ (1 : ℚ) ≠ 0 := by
  exact ⟨rfl, by norm_num⟩

/-- C7 (amended): for a nonempty attack list with no sanity override the
score is `passed / (passed + failed)` when at least one test ran and 0.0
when none did; for the empty attack list the evaluator short-circuits to
score 1.0 (the repository's own `test_evaluate_defense_empty_attacks`
asserts this) rather than the spec's 0.0. -/
theorem evaluate_defense_score_formula (attacks : List Attack)
    (mo so : PytestOutcome) (h : attacks ≠ []) :
    (0 < (runPytest mo).passed + (runPytest mo).failed →
      (evaluate_defense attacks none mo so).score =
        ((runPytest mo).passed : ℚ)
          / (((runPytest mo).passed + (runPytest mo).failed : ℕ) : ℚ))
    ∧ ((runPytest mo).passed + (runPytest mo).failed = 0 →
      (evaluate_defense attacks none mo so).score = 0)
    ∧ (evaluate_defense [] none mo so).score = 1 := by
  have hne : attacks.isEmpty = false := by
    cases attacks with
    | nil => exact absurd rfl h
    | cons a t => rfl
  refine ⟨?_, ?_, rfl⟩ <;> intro htot <;>
    simp [evaluate_defense, hne, sanityTruthy, htot]

/-- C7 witness: the amended formula evaluated at a run that parsed to
3 passed, 1 failed. -/
theorem evaluate_defense_score_formula_witness :
    (evaluate_defense [Attack.mk "def test_a(): pass" "d" "edge_case"] none
      (PytestOutcome.completed 3 1 [] "")
      (PytestOutcome.completed 0 0 [] "")).score = 3/4 := by
  have h := (evaluate_defense_score_formula
    [Attack.mk "def test_a(): pass" "d" "edge_case"]
    (PytestOutcome.completed 3 1 [] "") (PytestOutcome.completed 0 0 [] "")
    (by simp)).1 (by norm_num [runPytest])
  rw [h]
  norm_num [runPytest]

/-- C1: in the promotion step of a round, the current target is replaced by
the round's patched source iff the new robustness strictly exceeds the best
robustness previously on record (which reads as 0.0 when the defense archive
is empty); on equal or lower robustness the current target is unchanged; in
both cases the defense genome is handed to `DefenseArchive.add`
unconditionally and therefore always lands in the archive's history. -/
theorem promotion_rule (cc : String) (d : DefenseArchive) (fc ex : String)
    (bc nAtk rn : ℕ) :
    (bestRobustness d < roundRobustness bc nAtk →
      (promotionStep cc d fc ex bc nAtk rn).current_code = fc
      ∧ (promotionStep cc d fc ex bc nAtk rn).defense_improved = true)
    ∧ (¬ bestRobustness d < roundRobustness bc nAtk →
      (promotionStep cc d fc ex bc nAtk rn).current_code = cc
      ∧ (promotionStep cc d fc ex bc nAtk rn).defense_improved = false)
    ∧ (promotionStep cc d fc ex bc nAtk rn).defense_archive
        = d.add (roundDefenseGenome fc ex bc nAtk rn)
    ∧ roundDefenseGenome fc ex bc nAtk rn
        ∈ (promotionStep cc d fc ex bc nAtk rn).defense_archive.history
    ∧ (d.archive = [] → bestRobustness d = 0) := by
  refine ⟨?_, ?_, ?_, ?_, ?_⟩
  · intro h
    constructor <;> simp [promotionStep, h]
  · intro h
    constructor <;> simp [promotionStep, h]
  · by_cases h : bestRobustness d < roundRobustness bc nAtk <;>
      simp [promotionStep, h]
  · have harch : (promotionStep cc d fc ex bc nAtk rn).defense_archive
        = d.add (roundDefenseGenome fc ex bc nAtk rn) := by
      by_cases h : bestRobustness d < roundRobustness bc nAtk <;>
        simp [promotionStep, h]
    rw [harch, defenseAdd_history]
    simp
  · intro h
    simp [bestRobustness, DefenseArchive.get_best, h]

/-- C1 witness: starting from an empty defense archive (prior best 0.0), a
defense blocking 1 of 2 attacks (robustness 1/2) is promoted, and the genome
is recorded in the archive history. -/
theorem promotion_rule_witness :
    (promotionStep "orig" { max_size := 50 } "patched" "why" 1 2 1).current_code
        = "patched"
    ∧ roundDefenseGenome "patched" "why" 1 2 1
        ∈ (promotionStep "orig" { max_size := 50 } "patched" "why" 1 2 1).defense_archive.history := by
  have hlt : bestRobustness { max_size := 50 } < roundRobustness 1 2 := by
    norm_num [bestRobustness, DefenseArchive.get_best, roundRobustness]
  exact ⟨((promotion_rule "orig" { max_size := 50 } "patched" "why" 1 2 1).1 hlt).1,
    (promotion_rule "orig" { max_size := 50 } "patched" "why" 1 2 1).2.2.2.1⟩

/-- Helper: the stable descending robustness sort is a permutation. -/
theorem robSortDesc_perm (l : List DefenseGenome) : List.Perm (robSortDesc l) l :=
  List.perm_insertionSort robGe l

/-- Helper: the stable descending robustness sort is sorted for `robGe`. -/
theorem robSortDesc_sorted (l : List DefenseGenome) :
    List.Sorted robGe (robSortDesc l) :=
  List.sorted_insertionSort robGe l

/-- Helper: the stable ascending fitness sort is a permutation. -/
theorem fitSortAsc_perm (l : List AttackGenome) : List.Perm (fitSortAsc l) l :=
  List.perm_insertionSort fitLe l

/-- Helper: the stable ascending fitness sort is sorted for `fitLe`. -/
theorem fitSortAsc_sorted (l : List AttackGenome) :
    List.Sorted fitLe (fitSortAsc l) :=
  List.sorted_insertionSort fitLe l

/-- Helper: Python's `max(archive, key=robustness)` fold dominates its
starting value. -/
theorem foldlBest_ge_init (t : List DefenseGenome) (g : DefenseGenome) :
    g.robustness ≤
      (t.foldl (fun best x => if best.robustness < x.robustness then x else best)
        g).robustness := by
  induction t generalizing g with
  | nil => exact le_refl _
  | cons h tl ih =>
    simp only [List.foldl_cons]
    by_cases hc : g.robustness < h.robustness
    · rw [if_pos hc]
      exact le_trans (le_of_lt hc) (ih h)
    · rw [if_neg hc]
      exact ih g

/-- Helper: Python's `max(archive, key=robustness)` fold stays inside the
list it folds over. -/
theorem foldlBest_mem (t : List DefenseGenome) (g : DefenseGenome) :
    t.foldl (fun best x => if best.robustness < x.robustness then x else best) g
      ∈ g :: t := by
  induction t generalizing g with
  | nil => simp
  | cons h tl ih =>
    simp only [List.foldl_cons]
    have hm := ih (if g.robustness < h.robustness then h else g)
    by_cases hc : g.robustness < h.robustness <;>
      simp [hc] at hm ⊢ <;> tauto

/-- Helper: Python's `max(archive, key=robustness)` fold dominates every
element of the list it folds over, and the start. -/
theorem foldlBest_ge (t : List DefenseGenome) (g : DefenseGenome) :
    ∀ x ∈ g :: t,
      x.robustness ≤
        (t.foldl (fun best x => if best.robustness < x.robustness then x else best)
          g).robustness := by
  induction t generalizing g with
  | nil =>
    intro x hx
    rw [List.mem_singleton.1 hx]
    exact le_refl _
  | cons h tl ih =>
    intro x hx
    simp only [List.foldl_cons]
    rcases List.mem_cons.1 hx with h1 | h2
    · rw [h1]
      by_cases hc : g.robustness < h.robustness
      · rw [if_pos hc]
        exact le_trans (le_of_lt hc) (foldlBest_ge_init tl h)
      · rw [if_neg hc]
        exact foldlBest_ge_init tl g
    · rcases List.mem_cons.1 h2 with h3 | h4
      · rw [h3]
        by_cases hc : g.robustness < h.robustness
        · rw [if_pos hc]
          exact foldlBest_ge_init tl h
        · rw [if_neg hc]
          exact le_trans (not_lt.1 hc) (foldlBest_ge_init tl g)
      · by_cases hc : g.robustness < h.robustness
        · rw [if_pos hc]
          exact ih h x (List.mem_cons.2 (Or.inr h4))
        · rw [if_neg hc]
          exact ih g x (List.mem_cons.2 (Or.inr h4))

/-- Helper: a defense genome's robustness is never negative. -/
theorem robustness_nonneg (g : DefenseGenome) : 0 ≤ g.robustness := by
  unfold DefenseGenome.robustness
  split
  · exact le_refl 0
  · positivity

/-- Helper: every archived defense's robustness is at most `bestRobustness`. -/
theorem bestRobustness_mem_le (d : DefenseArchive) :
    ∀ x ∈ d.archive, x.robustness ≤ bestRobustness d := by
  intro x hx
  unfold bestRobustness DefenseArchive.get_best
  cases harch : d.archive with
  | nil => rw [harch] at hx; cases hx
  | cons h tl =>
    rw [harch] at hx
    exact foldlBest_ge tl h x hx

/-- Helper: `bestRobustness` is never negative. -/
theorem bestRobustness_nonneg (d : DefenseArchive) : 0 ≤ bestRobustness d := by
  unfold bestRobustness
  cases hb : d.get_best with
  | none => exact le_refl 0
  | some g => exact robustness_nonneg g

/-- Helper: on a nonempty archive, `bestRobustness` is attained by a member. -/
theorem bestRobustness_attained (d : DefenseArchive) (h : d.archive ≠ []) :
    ∃ x ∈ d.archive, bestRobustness d = x.robustness := by
  unfold bestRobustness DefenseArchive.get_best
  cases harch : d.archive with
  | nil => exact absurd harch h
  | cons hd tl =>
    exact ⟨_, foldlBest_mem tl hd, rfl⟩

/-- C8 counterexample: defenses of robustness 0.5, 0.9, 0.2 are added in that
insertion order to a `DefenseArchive` with `max_size = 2`.  The claim says the
retained genomes stay in insertion order (`[0.5-defense, 0.9-defense]`), but
the overflow handler re-sorts the whole archive by descending robustness, so
the archive ends as `[0.9-defense, 0.5-defense]`. -/
theorem defense_archive_order_counterexample :
    smallDefenseArchive.archive = [exDefense "b" 9 10, exDefense "a" 1 2]
    ∧ smallDefenseArchive.archive ≠ [exDefense "a" 1 2, exDefense "b" 9 10] := by
  have h : smallDefenseArchive.archive = [exDefense "b" 9 10, exDefense "a" 1 2] := by
    norm_num [smallDefenseArchive, DefenseArchive.addAll, DefenseArchive.add,
      robSortDesc, List.insertionSort, List.orderedInsert, robGe,
      DefenseGenome.robustness, exDefense]
  refine ⟨h, ?_⟩
  rw [h]
  simp [exDefense]

/-- C8 (amended): an add that respects the bound appends the genome, keeping
insertion order; an add that exceeds `max_size` replaces the archive with the
`max_size` highest-robustness genomes in descending robustness order (a stable
re-sort of the old archive plus the candidate, not the prior insertion order):
every dropped genome's robustness is at most every retained genome's, and
retained plus dropped is a permutation of the old archive plus the candidate.
`get_best` always returns an archived genome of maximal robustness. -/
theorem defense_archive_add_amended (d : DefenseArchive) (g : DefenseGenome) :
    (d.archive.length + 1 ≤ d.max_size → (d.add g).archive = d.archive ++ [g])
    ∧ (d.max_size < d.archive.length + 1 →
        (d.add g).archive = (robSortDesc (d.archive ++ [g])).take d.max_size
        ∧ (∀ x ∈ (robSortDesc (d.archive ++ [g])).drop d.max_size,
            ∀ y ∈ (d.add g).archive, x.robustness ≤ y.robustness)
        ∧ List.Perm
            ((d.add g).archive ++ (robSortDesc (d.archive ++ [g])).drop d.max_size)
            (d.archive ++ [g]))
    ∧ (∀ b, (d.add g).get_best = some b →
        b ∈ (d.add g).archive
        ∧ ∀ x ∈ (d.add g).archive, x.robustness ≤ b.robustness) := by
  refine ⟨?_, ?_, ?_⟩
  · intro h
    rw [defenseAdd_archive, if_neg]
    simp only [List.length_append, List.length_singleton]
    omega
  · intro h
    have harch : (d.add g).archive = (robSortDesc (d.archive ++ [g])).take d.max_size := by
      rw [defenseAdd_archive, if_pos]
      simp only [List.length_append, List.length_singleton]
      omega
    refine ⟨harch, ?_, ?_⟩
    · intro x hx y hy
      rw [harch] at hy
      have hs := robSortDesc_sorted (d.archive ++ [g])
      rw [← List.take_append_drop d.max_size (robSortDesc (d.archive ++ [g]))] at hs
      have hp := (List.pairwise_append.1 hs).2.2
      exact hp y hy x hx
    · rw [harch, List.take_append_drop]
      exact robSortDesc_perm (d.archive ++ [g])
  · intro b hb
    unfold DefenseArchive.get_best at hb
    cases harch : (d.add g).archive with
    | nil => rw [harch] at hb; cases hb
    | cons hd tl =>
      rw [harch] at hb
      have hb2 : tl.foldl
          (fun best x => if best.robustness < x.robustness then x else best) hd = b := by
        exact Option.some.inj hb
      rw [← hb2]
      exact ⟨foldlBest_mem tl hd, foldlBest_ge tl hd⟩

/-- C8 witness: the amended overflow behavior evaluated at a two-element
archive of bound 2 receiving a third defense. -/
theorem defense_archive_add_amended_witness :
    ((DefenseArchive.mk 2 [exDefense "a" 1 2, exDefense "b" 9 10] []).add
        (exDefense "c" 1 5)).archive
      = (robSortDesc ([exDefense "a" 1 2, exDefense "b" 9 10] ++ [exDefense "c" 1 5])).take 2 := by
  exact ((defense_archive_add_amended
    (DefenseArchive.mk 2 [exDefense "a" 1 2, exDefense "b" 9 10] [])
    (exDefense "c" 1 5)).2.1 (by norm_num)).1

/-- Helper: `DefenseArchive.add` keeps the archive within `max_size`. -/
theorem defenseAdd_len (d : DefenseArchive) (g : DefenseGenome) :
    (d.add g).archive.length ≤ (d.add g).max_size := by
  rw [defenseAdd_archive, defenseAdd_max_size]
  split
  · simp only [List.length_take]
    exact min_le_left _ _
  · rename_i hcond
    simp only [List.length_append, List.length_singleton] at hcond ⊢
    omega

/-- Helper: every archive reachable by `addAll` respects its bound. -/
theorem addAll_len (m : ℕ) (gs : List DefenseGenome) :
    (DefenseArchive.addAll m gs).archive.length
      ≤ (DefenseArchive.addAll m gs).max_size := by
  unfold DefenseArchive.addAll
  have hgen : ∀ (l : List DefenseGenome) (d : DefenseArchive),
      d.archive.length ≤ d.max_size →
      (l.foldl DefenseArchive.add d).archive.length
        ≤ (l.foldl DefenseArchive.add d).max_size := by
    intro l
    induction l with
    | nil => intro d hd; exact hd
    | cons g tl ih =>
      intro d hd
      exact ih (d.add g) (defenseAdd_len d g)
  exact hgen gs _ (by simp)

/-- Helper: one `DefenseArchive.add` on an in-bound archive never lowers the
best robustness on record. -/
theorem defenseAdd_best_mono (d : DefenseArchive) (g : DefenseGenome)
    (hlen : d.archive.length ≤ d.max_size) :
    bestRobustness d ≤ bestRobustness (d.add g) := by
  cases harch : d.archive with
  | nil =>
    have hz : bestRobustness d = 0 := by
      unfold bestRobustness DefenseArchive.get_best
      rw [harch]
    rw [hz]
    exact bestRobustness_nonneg _
  | cons hd tl =>
    obtain ⟨x, hxmem, hxeq⟩ := bestRobustness_attained d (by rw [harch]; simp)
    rw [hxeq]
    by_cases hover : d.max_size < (d.archive ++ [g]).length
    · -- overflow: the head of the descending sort survives and dominates
      have hlen2 : d.archive.length + 1 ≤ d.max_size + 1 := by omega
      have hmax1 : 1 ≤ d.max_size := by
        have h1 : 1 ≤ d.archive.length := by rw [harch]; simp
        omega
      have hsne : robSortDesc (d.archive ++ [g]) ≠ [] := by
        intro hnil
        have := (robSortDesc_perm (d.archive ++ [g])).length_eq
        rw [hnil] at this
        simp [harch] at this
      cases hsort : robSortDesc (d.archive ++ [g]) with
      | nil => exact absurd hsort hsne
      | cons sh st =>
        have hmemtake : sh ∈ (robSortDesc (d.archive ++ [g])).take d.max_size := by
          rw [hsort]
          obtain ⟨k, hk⟩ : ∃ k, d.max_size = k + 1 := ⟨d.max_size - 1, by omega⟩
          rw [hk]
          simp
        have harchnew : (d.add g).archive
            = (robSortDesc (d.archive ++ [g])).take d.max_size := by
          rw [defenseAdd_archive, if_pos hover]
        have hxs : x ∈ robSortDesc (d.archive ++ [g]) :=
          (robSortDesc_perm (d.archive ++ [g])).mem_iff.2
            (List.mem_append.2 (Or.inl hxmem))
        have hxle : x.robustness ≤ sh.robustness := by
          rw [hsort] at hxs
          rcases List.mem_cons.1 hxs with h1 | h2
          · rw [h1]
          · have hs := robSortDesc_sorted (d.archive ++ [g])
            rw [hsort] at hs
            exact (List.pairwise_cons.1 hs).1 x h2
        calc x.robustness ≤ sh.robustness := hxle
          _ ≤ bestRobustness (d.add g) := by
              apply bestRobustness_mem_le
              rw [harchnew]
              exact hmemtake
    · -- no overflow: the old member is still archived
      apply bestRobustness_mem_le
      rw [defenseAdd_archive, if_neg hover]
      exact List.mem_append.2 (Or.inl hxmem)

/-- C9: along any sequence of `DefenseArchive.add` operations started from a
fresh archive, the robustness of `get_best()` (read as 0.0 on an empty
archive) never decreases when one more defense is added, pruning included. -/
theorem best_robustness_monotone (m : ℕ) (gs : List DefenseGenome)
    (g : DefenseGenome) :
    bestRobustness (DefenseArchive.addAll m gs)
      ≤ bestRobustness ((DefenseArchive.addAll m gs).add g) := by
  apply defenseAdd_best_mono
  have h := addAll_len m gs
  have hms : (DefenseArchive.addAll m gs).max_size = m := by
    unfold DefenseArchive.addAll
    have hgen : ∀ (l : List DefenseGenome) (d : DefenseArchive),
        (l.foldl DefenseArchive.add d).max_size = d.max_size := by
      intro l
      induction l with
      | nil => intro d; rfl
      | cons x tl ih =>
        intro d
        rw [List.foldl_cons, ih, defenseAdd_max_size]
    exact hgen gs _
  rw [hms] at h ⊢
  exact h

/-- Helper: a niche lookup skips entries with a different key. -/
theorem nicheGet_cons_ne (p : (String × String) × List AttackGenome)
    (m : NicheMap) (n : String × String) (hp : p.1 ≠ n) :
    nicheGet (p :: m) n = nicheGet m n := by
  unfold nicheGet
  rw [List.find?_cons_of_neg]
  simp [hp]

/-- Helper: writing a niche's list and reading the same niche back gives
exactly the written list. -/
theorem nicheGet_set_same (m : NicheMap) (n : String × String)
    (l : List AttackGenome) : nicheGet (nicheSet m n l) n = l := by
  induction m with
  | nil => simp [nicheSet, nicheGet]
  | cons p rest ih =>
    by_cases hp : p.1 = n
    · have hany : (p :: rest).any (fun q => decide (q.1 = n)) = true := by
        simp [List.any_cons, hp]
      simp [nicheSet, hany, hp, nicheGet]
    · by_cases hr : rest.any (fun q => decide (q.1 = n)) = true
      · have hany : (p :: rest).any (fun q => decide (q.1 = n)) = true := by
          simp [List.any_cons, hr]
        have hset : nicheSet (p :: rest) n l
            = (if p.1 = n then (n, l) else p)
              :: rest.map (fun q => if q.1 = n then (n, l) else q) := by
          simp [nicheSet, hany]
        rw [hset, if_neg hp, nicheGet_cons_ne _ _ _ hp]
        have hmapeq : rest.map (fun q => if q.1 = n then (n, l) else q)
            = nicheSet rest n l := by
          simp [nicheSet, hr]
        rw [hmapeq]
        exact ih
      · have hany : (p :: rest).any (fun q => decide (q.1 = n)) = false := by
          simp only [List.any_cons, Bool.or_eq_false_iff]
          exact ⟨by simp [hp], Bool.eq_false_iff.mpr hr⟩
        have hset : nicheSet (p :: rest) n l = p :: (rest ++ [(n, l)]) := by
          simp [nicheSet, hany]
        rw [hset, nicheGet_cons_ne _ _ _ hp]
        have hresteq : rest ++ [(n, l)] = nicheSet rest n l := by
          simp [nicheSet, hr]
        rw [hresteq]
        exact ih

/-- C4: `MAPElitesArchive.add` accepts into a niche holding fewer than
`max_per_niche` genomes (re-sorting the niche by descending fitness) and
returns true; on a full niche it accepts iff the candidate's fitness strictly
exceeds the niche minimum, in which case the head of the ascending stable
sort — a genome of minimum fitness belonging to the niche — is evicted, and
otherwise returns false leaving the archive map unchanged; in particular the
§8 scenario-4 insertion sequence (fitnesses 0.6, 0.7, 0.8, 0.5 into one niche
with `max_per_niche = 3`) ends with the niche at fitnesses 0.8, 0.7, 0.6 and
the last add rejected.  (`0 < max_per_niche` is assumed: on a full niche with
bound 0 the Python source would raise on `min()` of an empty sequence.) -/
theorem mapelites_add_rule (a : MAPElitesArchive) (g : AttackGenome)
    (hmax : 0 < a.max_per_niche) :
    ((nicheGet a.archive g.niche).length < a.max_per_niche →
      (a.add g).2 = true
      ∧ nicheGet (a.add g).1.archive g.niche
          = fitSortDesc (nicheGet a.archive g.niche ++ [g]))
    ∧ (a.max_per_niche ≤ (nicheGet a.archive g.niche).length →
        ((a.add g).2 = true ↔ minFitness (nicheGet a.archive g.niche) < g.fitness)
        ∧ (minFitness (nicheGet a.archive g.niche) < g.fitness →
            ∃ ev rest, fitSortAsc (nicheGet a.archive g.niche) = ev :: rest
              ∧ ev ∈ nicheGet a.archive g.niche
              ∧ (∀ x ∈ nicheGet a.archive g.niche, ev.fitness ≤ x.fitness)
              ∧ nicheGet (a.add g).1.archive g.niche = fitSortDesc (rest ++ [g]))
        ∧ (¬ minFitness (nicheGet a.archive g.niche) < g.fitness →
            (a.add g).2 = false ∧ (a.add g).1.archive = a.archive))
    ∧ ((nicheGet scenario4.1.archive ("edge_case", "TypeError")).map
          AttackGenome.fitness = [8/10, 7/10, 6/10]
        ∧ scenario4.2 = false) := by
  refine ⟨?_, ?_, ?_⟩
  · intro h
    constructor
    · simp [MAPElitesArchive.add, h]
    · simp [MAPElitesArchive.add, h, nicheGet_set_same]
  · intro hfull
    have hnotlt : ¬ ((nicheGet a.archive g.niche).length < a.max_per_niche) :=
      not_lt.mpr hfull
    refine ⟨?_, ?_, ?_⟩
    · by_cases hm : minFitness (nicheGet a.archive g.niche) < g.fitness <;>
        simp [MAPElitesArchive.add, hnotlt, hm]
    · intro hm
      have hne : nicheGet a.archive g.niche ≠ [] := by
        intro h0
        rw [h0] at hfull
        simp at hfull
        omega
      cases hsort : fitSortAsc (nicheGet a.archive g.niche) with
      | nil =>
        exfalso
        have hlen := (fitSortAsc_perm (nicheGet a.archive g.niche)).length_eq
        rw [hsort] at hlen
        exact hne (List.length_eq_zero.1 hlen.symm)
      | cons ev rest =>
        refine ⟨ev, rest, rfl, ?_, ?_, ?_⟩
        · have hmem : ev ∈ fitSortAsc (nicheGet a.archive g.niche) := by
            rw [hsort]
            exact List.mem_cons_self _ _
          exact (fitSortAsc_perm _).mem_iff.1 hmem
        · intro x hx
          have hx2 : x ∈ ev :: rest := by
            rw [← hsort]
            exact (fitSortAsc_perm _).mem_iff.2 hx
          rcases List.mem_cons.1 hx2 with h1 | h2
          · exact le_of_eq (by rw [h1])
          · have hs := fitSortAsc_sorted (nicheGet a.archive g.niche)
            rw [hsort] at hs
            exact (List.pairwise_cons.1 hs).1 x h2
        · simp [MAPElitesArchive.add, hnotlt, hm, nicheGet_set_same, hsort]
    · intro hm
      constructor <;> simp [MAPElitesArchive.add, hnotlt, hm]
  · constructor
    · norm_num [scenario4, addNext, MAPElitesArchive.add, exGenome,
        AttackGenome.niche, nicheGet, nicheSet, minFitness, fitSortDesc,
        fitSortAsc, List.insertionSort, List.orderedInsert, fitGe, fitLe]
    · norm_num [scenario4, addNext, MAPElitesArchive.add, exGenome,
        AttackGenome.niche, nicheGet, nicheSet, minFitness, fitSortDesc,
        fitSortAsc, List.insertionSort, List.orderedInsert, fitGe, fitLe]

/-- C4 witness: adding a genome to a fresh archive (empty niche, bound 3)
is accepted. -/
theorem mapelites_add_rule_witness :
    (({ } : MAPElitesArchive).add (exGenome "w" (6/10))).2 = true := by
  exact ((mapelites_add_rule { } (exGenome "w" (6/10)) (by decide)).1
    (by decide)).1

/-- C5 (code bug): `get_diverse_sample` was meant to take each niche's best,
then each niche's second-best, and so on (its own inline comment says so),
but every pass appends `self.archive[niche][0]` — the same top element —
so an archive holding one niche with three genomes of fitness 0.9, 0.8, 0.7,
sampled with `n = 2`, yields the top genome twice: the sample has length 2
but contains a duplicate instead of the second-best genome. -/
theorem diverse_sample_repeats_head :
    oneNicheArchive.get_diverse_sample 2
      = [exGenome "a" (9/10), exGenome "a" (9/10)]
    ∧ ¬ (oneNicheArchive.get_diverse_sample 2).Nodup
    ∧ oneNicheArchive.get_all.length = 3 := by
  have harch : oneNicheArchive = {
      max_per_niche := 3
      archive := [(("edge_case", "TypeError"),
        [exGenome "a" (9/10), exGenome "b" (8/10), exGenome "c" (7/10)])]
      history := [exGenome "a" (9/10), exGenome "b" (8/10), exGenome "c" (7/10)]
      total_evaluated := 3
      total_added := 3 } := by
    norm_num [oneNicheArchive, addNext, MAPElitesArchive.add, exGenome,
      AttackGenome.niche, nicheGet, nicheSet, minFitness, fitSortDesc,
      fitSortAsc, List.insertionSort, List.orderedInsert, fitGe, fitLe]
  have hsample : oneNicheArchive.get_diverse_sample 2
      = [exGenome "a" (9/10), exGenome "a" (9/10)] := by
    rw [harch]
    norm_num [MAPElitesArchive.get_diverse_sample, MAPElitesArchive.get_all,
      diverseLoop, diversePass, nicheGet, exGenome]
  refine ⟨hsample, ?_, ?_⟩
  · rw [hsample]
    simp
  · rw [harch]
    simp [MAPElitesArchive.get_all]
